import Mathlib

/-!
Verification of the DBIIReplay capture-device discovery and preview code.

The Python sources are shallowly embedded:

* character-level string helpers model the str methods used by the code
  (lower, strip, splitlines on text-mode output, substring containment);
* capture.py: score_device_name, choose_best_device (CPython sorted with
  reverse=True over (score, name) tuples is modelled by a stable descending
  insertion sort on pairs ordered by the tuple order), the three PowerShell
  enumeration strategies, the ffmpeg fallback and the dict.fromkeys
  deduplication, load_config / ensure_default_capture_device with an explicit
  effect record (enumeration performed, number of names scored, config saved);
* main.py: ensure_config over an association-list filesystem, with json.loads
  and json.dumps as oracle parameters and the pathlib with_suffix backup name
  computed by the pathlib algorithm;
* window.py: VideoCaptureThread.run as a fuel-indexed loop over an abstract
  capture backend, with the stop schedule given as the iteration index at
  which the host clears the running flag.
-/

/-! ### Character-level string helpers (Python str methods) -/

/-- Python str.lower restricted to the ASCII range, applied per character. -/
def lowerChars (l : List Char) : List Char := l.map Char.toLower

/-- The whitespace characters removed by Python str.strip with no argument. -/
def isPySpace (c : Char) : Bool :=
  c == ' ' || c == '\t' || c == '\n' || c == '\r' || c == '\x0B' || c == '\x0C'

/-- Drop matching characters from the end of a list. -/
def dropTrailing (p : Char → Bool) (l : List Char) : List Char :=
  (l.reverse.dropWhile p).reverse

/-- Python str.strip() on a character list. -/
def pyStrip (l : List Char) : List Char :=
  dropTrailing isPySpace (l.dropWhile isPySpace)

/-- Python str.strip() on strings. -/
def stripStr (s : String) : String := ⟨pyStrip s.data⟩

/-- Split on a separator character, like Python str.split(sep). -/
def splitOnCharGo (sep : Char) : List Char → List Char → List (List Char)
  | [], cur => [cur.reverse]
  | c :: cs, cur =>
    if c == sep then cur.reverse :: splitOnCharGo sep cs []
    else splitOnCharGo sep cs (c :: cur)

def splitOnChar (sep : Char) (l : List Char) : List (List Char) :=
  splitOnCharGo sep l []

/-- Python str.splitlines on text-mode subprocess output, where universal
newlines translation has already reduced every line break to a single
newline character. -/
def splitLinesChars (l : List Char) : List (List Char) := splitOnChar '\n' l

/-- The list comprehension pattern
line.strip() for line in out.splitlines() if line.strip(): split the output
into lines, strip each, keep the non-empty ones. -/
def cleanLines (out : String) : List String :=
  (((splitLinesChars out.data).map pyStrip).filter (fun l => !l.isEmpty)).map
    (fun l => (⟨l⟩ : String))

/-- Does the pattern match at the head of the list? -/
def matchesAt : List Char → List Char → Bool
  | [], _ => true
  | _ :: _, [] => false
  | p :: ps, c :: cs => p == c && matchesAt ps cs

/-- Python substring containment, k in n: the pattern occurs contiguously. -/
def containsSub (pat : List Char) : List Char → Bool
  | [] => pat.isEmpty
  | c :: cs => matchesAt pat (c :: cs) || containsSub pat cs

/-! ### capture.py: device name scoring -/

/-- The fixed weight table of score_device_name. -/
def deviceWeights : List (String × Int) :=
  [("elgato", 50), ("blackmagic", 50), ("avermedia", 45), ("hauppauge", 45),
   ("capture", 30), ("video", 40), ("hdmi", 25), ("usb", 10), ("webcam", 12),
   ("camera", 5), ("cam", 4)]

/-- capture.py score_device_name: lower-case the name, add the weight of each
keyword that occurs as a substring, add 2 if the lowered name is longer than
20 characters. -/
def score_device_name (name : String) : Int :=
  let n := lowerChars name.data
  let base := deviceWeights.foldl
    (fun acc kw => if containsSub kw.1.data n then acc + kw.2 else acc) 0
  if n.length > 20 then base + 2 else base

/-- The scoring algorithm as the specification words it: the sum of the
weights of the matching keywords, plus the length bonus. -/
def spec_score (name : String) : Int :=
  ((deviceWeights.filter
      (fun kw => containsSub kw.1.data (lowerChars name.data))).map
    (fun kw => kw.2)).sum
  + (if (lowerChars name.data).length > 20 then 2 else 0)

/-! ### capture.py: choose_best_device via CPython sorted(reverse=True) -/

/-- CPython string comparison: lexicographic by code point, a proper
initial segment compares smaller. -/
def charListLt : List Char → List Char → Bool
  | _, [] => false
  | [], _ :: _ => true
  | a :: as, b :: bs =>
    if a.toNat < b.toNat then true
    else if b.toNat < a.toNat then false
    else charListLt as bs

/-- CPython string less-than on String. -/
def pyStrLt (a b : String) : Bool := charListLt a.data b.data

/-- CPython tuple comparison on (score, name) pairs. -/
def pairLt (p q : Int × String) : Bool :=
  decide (p.1 < q.1) || (p.1 == q.1 && pyStrLt p.2 q.2)

/-- One step of a stable descending insertion sort: the new element is
placed before the first strictly smaller element, so among equal tuples a
later element stays after earlier ones, as CPython stable sort does. -/
def insertD (x : Int × String) : List (Int × String) → List (Int × String)
  | [] => [x]
  | y :: ys => if pairLt y x then x :: y :: ys else y :: insertD x ys

/-- sorted(pairs, reverse=True): stable, descending in the tuple order. -/
def sortDesc (l : List (Int × String)) : List (Int × String) :=
  l.foldl (fun acc x => insertD x acc) []

/-- capture.py choose_best_device: None on an empty list, otherwise the name
component of the head of the descending sorted (score, name) list. -/
def choose_best_device (devices : List String) : Option String :=
  if devices.isEmpty then none
  else
    match sortDesc (devices.map (fun d => (score_device_name d, d))) with
    | [] => none
    | (_, best_name) :: _ => some best_name


/-! ### capture.py: enumeration strategies -/

/-- list(dict.fromkeys(xs)): keep the first occurrence of each name, in
order, tracking the set of names already seen. -/
def dedupSeen : List String → List String → List String
  | _, [] => []
  | seen, x :: xs =>
    if seen.contains x then dedupSeen seen xs
    else x :: dedupSeen (x :: seen) xs

def dedupFirst (l : List String) : List String := dedupSeen [] l

/-- The outcome of one external query: an exception from subprocess.run
(launch failure or timeout), or the raw captured stdout.  A non-zero exit
status does not raise because subprocess.run is called without check=True,
so it simply yields whatever stdout was produced. -/
structure QueryEnv where
  cimMatch : Except Unit String
  pnpCamera : Except Unit String
  cimAll : Except Unit String
  ffmpegList : Except Unit (Int × String × String)

/-- The first two PowerShell strategies of find_capture_devices_pnp: on an
exception fall through (none); on output, strip it (as _run_powershell does),
and when non-empty return the deduplicated stripped non-empty lines. -/
def strategyPS (o : Except Unit String) : Option (List String) :=
  match o with
  | .error _ => none
  | .ok raw =>
    let out := stripStr raw
    if out == "" then none else some (dedupFirst (cleanLines out))

/-- The keyword list used by the client-side filter of the third strategy
(note: no video and no webcam entry, unlike the scoring table). -/
def filterKeywordList : List String :=
  ["elgato", "blackmagic", "avermedia", "hauppauge", "capture", "hdmi",
   "usb", "camera", "cam"]

/-- The last-resort PowerShell strategy: list all PnP names and keep those
containing one of the keywords, case-insensitively; when the query produced
output this strategy returns (possibly an empty list), otherwise it falls
through. -/
def strategyAll (o : Except Unit String) : Option (List String) :=
  match o with
  | .error _ => none
  | .ok raw =>
    let out := stripStr raw
    if out == "" then none
    else
      some (dedupFirst ((cleanLines out).filter
        (fun name => filterKeywordList.any
          (fun k => containsSub k.data (lowerChars name.data)))))

/-- capture.py find_capture_devices_pnp: three strategies in order, each
exception or empty output falling through to the next, ending with []. -/
def find_capture_devices_pnp (env : QueryEnv) : List String :=
  match strategyPS env.cimMatch with
  | some r => r
  | none =>
    match strategyPS env.pnpCamera with
    | some r => r
    | none =>
      match strategyAll env.cimAll with
      | some r => r
      | none => []

/-- Python str.strip applied with the quote character as argument: remove
every leading and trailing double quote. -/
def stripQuotes (l : List Char) : List Char :=
  ((l.dropWhile (· == '"')).reverse.dropWhile (· == '"')).reverse

/-- One line of ffmpeg -list_devices output: a fully quoted line yields the
line with quotes stripped (even if that leaves the empty string); a line with
an embedded quoted segment yields the stripped text between the first pair of
quotes when non-empty; anything else yields nothing. -/
def parseFfmpegLine (line : List Char) : Option String :=
  let l := pyStrip line
  if l.isEmpty then none
  else if l.head? == some '"' && l.getLast? == some '"' then
    some (⟨stripQuotes l⟩ : String)
  else if l.contains '"' then
    let parts := splitOnChar '"' l
    if parts.length ≥ 3 then
      let name := pyStrip ((parts.get? 1).getD [])
      if name.isEmpty then none else some (⟨name⟩ : String)
    else none
  else none

/-- The device names extracted from the combined stdout/stderr text. -/
def parseFfmpegText (text : List Char) : List String :=
  (splitLinesChars text).filterMap parseFfmpegLine

/-- capture.py find_capture_devices_ffmpeg: on an exception the single
command is skipped and the empty accumulator is deduplicated; otherwise
the stripped stdout and stderr are joined with a newline and parsed. -/
def find_capture_devices_ffmpeg (env : QueryEnv) : List String :=
  match env.ffmpegList with
  | .error _ => dedupFirst []
  | .ok (_, out, err) =>
    dedupFirst (parseFfmpegText ((stripStr out).data ++ '\n' :: (stripStr err).data))

/-- capture.py find_capture_devices: the PnP result when non-empty, else the
ffmpeg fallback. -/
def find_capture_devices (env : QueryEnv) : List String :=
  let pnp := find_capture_devices_pnp env
  if pnp.isEmpty then find_capture_devices_ffmpeg env else pnp

/-- A PowerShell strategy fails or yields nothing: exception, or all-blank
output. -/
def psNothing : Except Unit String → Bool
  | .error _ => true
  | .ok raw => stripStr raw == ""

/-- The third strategy fails or yields nothing: exception, blank output, or
no name surviving the keyword filter. -/
def strat3Nothing (o : Except Unit String) : Bool :=
  match strategyAll o with
  | none => true
  | some r => r.isEmpty

/-! ### capture.py: configuration model and ensure_default_capture_device -/

/-- JSON values, as json.load produces them. -/
inductive JVal where
  | jnull : JVal
  | jbool : Bool → JVal
  | jnum : Int → JVal
  | jstr : String → JVal
  | jarr : List JVal → JVal
  | jobj : List (String × JVal) → JVal

/-- Python truthiness of a JSON value. -/
def truthy : JVal → Bool
  | .jnull => false
  | .jbool b => b
  | .jnum n => !(n == 0)
  | .jstr s => !(s == "")
  | .jarr l => !l.isEmpty
  | .jobj l => !l.isEmpty

/-- dict.get on the association list of a JSON object. -/
def jGet (kvs : List (String × JVal)) (k : String) : Option JVal :=
  (kvs.find? (fun p => p.1 == k)).map (fun p => p.2)

/-- dict item assignment: overwrite the value in place, or append the key. -/
def jSet : List (String × JVal) → String → JVal → List (String × JVal)
  | [], k, v => [(k, v)]
  | (k0, v0) :: rest, k, v =>
    if k0 == k then (k0, v) :: rest else (k0, v0) :: jSet rest k v

/-- The environment of one ensure_default_capture_device call: the outcome of
parsing config.json (none when opening or json.load raises) and the outcomes
of the enumeration queries. -/
structure DiscEnv where
  loadResult : Option JVal
  queries : QueryEnv

/-- capture.py load_config: the parsed file, or the empty dict on any
exception (missing file, unreadable file, invalid JSON); it never renames or
writes anything. -/
def load_config (r : Option JVal) : JVal :=
  r.getD (JVal.jobj [])

/-- The observable side effects of one ensure_default_capture_device call:
whether find_capture_devices ran, how many names were scored, and the config
object written back by save_config, if any. -/
structure DiscEffects where
  enumerated : Bool
  scoredCount : Nat
  saved : Option JVal

/-- cfg.get("source") == "capture" in Python equality: only the exact
string compares equal. -/
def sourceIsCapture (cfg : List (String × JVal)) : Bool :=
  match jGet cfg "source" with
  | some (.jstr s) => s == "capture"
  | _ => false

/-- The discovery branch of ensure_default_capture_device: enumerate, score,
and when a truthy best name exists write it into the config (unless dry_run)
and return it. -/
def discoverDevice (env : DiscEnv) (cfg : List (String × JVal))
    (dryRun : Bool) : Option JVal × DiscEffects :=
  let devices := find_capture_devices env.queries
  match choose_best_device devices with
  | some best =>
    if best == "" then (none, ⟨true, devices.length, none⟩)
    else
      let saved := if dryRun then none
        else some (JVal.jobj (jSet cfg "device" (.jstr best)))
      (some (.jstr best), ⟨true, devices.length, saved⟩)
  | none => (none, ⟨true, devices.length, none⟩)

/-- capture.py ensure_default_capture_device: non-dict config gives None;
source other than capture gives None; a truthy device value is returned
unchanged; otherwise the discovery branch runs. -/
def ensure_default_capture_device (env : DiscEnv) (dryRun : Bool) :
    Option JVal × DiscEffects :=
  match load_config env.loadResult with
  | .jobj cfg =>
    if !sourceIsCapture cfg then (none, ⟨false, 0, none⟩)
    else
      match jGet cfg "device" with
      | some v =>
        if truthy v then (some v, ⟨false, 0, none⟩)
        else discoverDevice env cfg dryRun
      | none => discoverDevice env cfg dryRun
  | _ => (none, ⟨false, 0, none⟩)

/-- The configuration state visible to the next call: a save replaces what
the next load_config parses, otherwise nothing changed. -/
def applySave (env : DiscEnv) (eff : DiscEffects) : DiscEnv :=
  match eff.saved with
  | some v => { env with loadResult := some v }
  | none => env

/-! ### main.py: ensure_config over an association-list filesystem -/

/-- A flat filesystem: path to file content. -/
structure FS where
  files : List (String × String)

def fsGet (fs : FS) (p : String) : Option String :=
  (fs.files.find? (fun e => e.1 == p)).map (fun e => e.2)

def fsSetList : List (String × String) → String → String → List (String × String)
  | [], p, c => [(p, c)]
  | (p0, c0) :: rest, p, c =>
    if p0 == p then (p0, c) :: rest else (p0, c0) :: fsSetList rest p c

/-- Path.write_text: create the file or overwrite its content. -/
def fsSet (fs : FS) (p : String) (c : String) : FS :=
  ⟨fsSetList fs.files p c⟩

/-- Remove a path. -/
def fsDel (fs : FS) (p : String) : FS :=
  ⟨fs.files.filter (fun e => !(e.1 == p))⟩

/-- Path.replace: rename src onto dst, overwriting dst. -/
def fsRename (fs : FS) (src dst : String) : FS :=
  match fsGet fs src with
  | some c => fsSet (fsDel fs src) dst c
  | none => fs

/-- The final component of a path, after the last slash. -/
def pathNameChars (p : List Char) : List Char :=
  (p.reverse.takeWhile (fun c => !(c == '/'))).reverse

/-- pathlib suffix of a file name: the part from the last dot, provided that
dot is neither the leading nor the trailing character. -/
def suffixOfName (n : List Char) : List Char :=
  match n.reverse.findIdx? (fun c => c == '.') with
  | none => []
  | some j =>
    let i := n.length - 1 - j
    if 0 < i ∧ i < n.length - 1 then n.drop i else []

/-- pathlib with_suffix on the file name: append when there is no suffix,
otherwise replace the old suffix. -/
def withSuffixName (n s : List Char) : List Char :=
  let old := suffixOfName n
  if old.isEmpty then n ++ s else n.take (n.length - old.length) ++ s

/-- path.with_suffix(path.suffix + ".bad"): the backup name used by
ensure_config for a corrupt configuration file. -/
def backupOf (p : String) : String :=
  let name := pathNameChars p.data
  let dir := p.data.take (p.data.length - name.length)
  ⟨dir ++ withSuffixName name (suffixOfName name ++ ".bad".data)⟩

/-- The DEFAULT_CONFIG dict of main.py. -/
def DEFAULT_CONFIG : JVal :=
  .jobj [("window", .jobj
    [("title", .jstr "DBII Replay"), ("width", .jnum 800),
     ("height", .jnum 600)])]

/-- main.py ensure_config, with json.loads and json.dumps as oracles: create
the file with defaults when missing; return the parsed content when it is
valid JSON; otherwise rename the file to the backup name and write defaults,
returning the default configuration. -/
def ensure_config (parse : String → Option JVal) (dumps : JVal → String)
    (fs : FS) (path : String) : JVal × FS :=
  match fsGet fs path with
  | none => (DEFAULT_CONFIG, fsSet fs path (dumps DEFAULT_CONFIG))
  | some content =>
    match parse content with
    | some v => (v, fs)
    | none =>
      let fs1 := fsRename fs path (backupOf path)
      (DEFAULT_CONFIG, fsSet fs1 path (dumps DEFAULT_CONFIG))

/-! ### window.py: VideoCaptureThread.run -/

/-- What a cv2.VideoCapture constructor call does: return an opened handle,
return a handle whose isOpened() is false, or raise. -/
inductive OpenOutcome where
  | opened : OpenOutcome
  | notOpened : OpenOutcome
  | raisesExc : OpenOutcome
deriving DecidableEq

/-- The backend and host behaviour one run observes: the outcome of the
open-by-name and the open-by-index-0 constructor calls, whether the k-th
read returns a frame, and the iteration index at which the host calls stop
(none when stop is never called). -/
structure CaptureEnv where
  openByName : OpenOutcome
  openIndex0 : OpenOutcome
  readOk : Nat → Bool
  stopTick : Option Nat

/-- The value of the running flag at the k-th loop-condition check. -/
def runningAt (env : CaptureEnv) (k : Nat) : Bool :=
  match env.stopTick with
  | none => true
  | some s => decide (k < s)

/-- What one run did, observed up to a fuel bound: the iteration indices at
which frameReady fired, how many release() calls run itself made, whether
control left run within the bound, and whether an exception escaped run. -/
structure RunOutcome where
  frames : List Nat
  releases : Nat
  exited : Bool
  raised : Bool
deriving DecidableEq

/-- The while loop of VideoCaptureThread.run: at each iteration boundary the
running flag is checked; a read from an unopened handle always fails; a
failed read sleeps and retries; a successful read emits one frame.  Leaving
the loop runs the finally block, which releases the non-None handle once.
Exhausted fuel means the loop was still running at the observation bound. -/
def runLoop (env : CaptureEnv) (capOpened : Bool) :
    Nat → Nat → List Nat → RunOutcome
  | 0, _, acc => ⟨acc.reverse, 0, false, false⟩
  | fuel + 1, k, acc =>
    if runningAt env k then
      if capOpened && env.readOk k then runLoop env capOpened fuel (k + 1) (k :: acc)
      else runLoop env capOpened fuel (k + 1) acc
    else ⟨acc.reverse, 1, true, false⟩

/-- VideoCaptureThread.run: open by DirectShow name; if the handle is not
opened, retry with index 0 inside try/except, where an exception returns
(the finally block still releasing the unopened name handle); the fallback
handle is used without a further isOpened check.  An exception from the
name open itself propagates with nothing to release. -/
def videoCaptureRun (env : CaptureEnv) (fuel : Nat) : RunOutcome :=
  match env.openByName with
  | .raisesExc => ⟨[], 0, true, true⟩
  | .opened => runLoop env true fuel 0 []
  | .notOpened =>
    match env.openIndex0 with
    | .raisesExc => ⟨[], 1, true, false⟩
    | .opened => runLoop env true fuel 0 []
    | .notOpened => runLoop env false fuel 0 []

/-- VideoCaptureThread.stop clears the running flag and itself calls
release() whenever the handle attribute is not None, which holds exactly
when the name-open constructor returned a handle object. -/
def stopReleases (env : CaptureEnv) : Nat :=
  if env.stopTick.isSome && !(env.openByName == OpenOutcome.raisesExc) then 1
  else 0

/-- release() calls made on the handle across run and stop together. -/
def totalReleases (env : CaptureEnv) (fuel : Nat) : Nat :=
  (videoCaptureRun env fuel).releases + stopReleases env

/-! ### Order lemmas for the CPython tuple comparison -/

theorem charListLt_irrefl : ∀ l, charListLt l l = false := by
  intro l
  induction l with
  | nil => rfl
  | cons a as ih => simp [charListLt, ih]

theorem charListLt_trans : ∀ a b c, charListLt a b = true →
    charListLt b c = true → charListLt a c = true := by
  intro a
  induction a with
  | nil =>
    intro b c hab hbc
    cases b with
    | nil => exact hbc
    | cons y ys =>
      cases c with
      | nil => simp [charListLt] at hbc
      | cons z zs => rfl
  | cons x xs ih =>
    intro b c hab hbc
    cases b with
    | nil => simp [charListLt] at hab
    | cons y ys =>
      cases c with
      | nil => simp [charListLt] at hbc
      | cons z zs =>
        simp only [charListLt] at hab hbc ⊢
        split_ifs at hab hbc ⊢ with h1 h2 h3 h4 h5 h6 <;>
          first
          | rfl
          | omega
          | (exact ih ys zs hab hbc)

theorem pairLt_irrefl (p : Int × String) : pairLt p p = false := by
  simp [pairLt, pyStrLt, charListLt_irrefl]

theorem pairLt_trans {p q r : Int × String} (hpq : pairLt p q = true)
    (hqr : pairLt q r = true) : pairLt p r = true := by
  simp only [pairLt, pyStrLt, Bool.or_eq_true, Bool.and_eq_true,
    decide_eq_true_eq, beq_iff_eq] at hpq hqr ⊢
  rcases hpq with h1 | ⟨h1, h1s⟩ <;> rcases hqr with h2 | ⟨h2, h2s⟩
  · exact Or.inl (h1.trans h2)
  · exact Or.inl (h2 ▸ h1)
  · exact Or.inl (h1 ▸ h2)
  · exact Or.inr ⟨h1.trans h2, charListLt_trans _ _ _ h1s h2s⟩

theorem pairLt_asymm {p q : Int × String} (h : pairLt p q = true) :
    pairLt q p = false := by
  by_contra hc
  have hqp : pairLt q p = true := by
    cases hpq : pairLt q p with
    | true => rfl
    | false => exact absurd hpq hc
  have := pairLt_trans h hqp
  rw [pairLt_irrefl] at this
  exact Bool.false_ne_true this

/-! ### Stable descending insertion sort lemmas -/

/-- Descending sortedness: no earlier element is smaller than a later one. -/
def SortedD (l : List (Int × String)) : Prop :=
  l.Pairwise (fun p q => pairLt p q = false)

theorem mem_insertD {x z : Int × String} : ∀ {l}, z ∈ insertD x l ↔ z = x ∨ z ∈ l := by
  intro l
  induction l with
  | nil => simp [insertD]
  | cons y ys ih =>
    simp only [insertD]
    split_ifs with h
    · simp [or_comm, or_assoc, or_left_comm]
    · simp only [List.mem_cons, ih]
      tauto

theorem insertD_sortedD {x : Int × String} : ∀ {l}, SortedD l → SortedD (insertD x l) := by
  intro l h
  induction l with
  | nil => simp [insertD, SortedD]
  | cons y ys ih =>
    rcases List.pairwise_cons.mp h with ⟨hy, hys⟩
    simp only [insertD]
    split_ifs with hlt
    · refine List.pairwise_cons.mpr ⟨?_, h⟩
      intro z hz
      rcases List.mem_cons.mp hz with rfl | hz
      · exact pairLt_asymm hlt
      · by_contra hc
        have hxz : pairLt x z = true := by
          cases hv : pairLt x z with
          | true => rfl
          | false => exact absurd hv hc
        have := pairLt_trans hlt hxz
        rw [hy z hz] at this
        exact Bool.false_ne_true this
    · refine List.pairwise_cons.mpr ⟨?_, ih hys⟩
      intro z hz
      rcases mem_insertD.mp hz with rfl | hz
      · exact Bool.eq_false_iff.mpr hlt
      · exact hy z hz

theorem sortDesc_go_sortedD :
    ∀ (l acc : List (Int × String)), SortedD acc →
      SortedD (l.foldl (fun a x => insertD x a) acc) := by
  intro l
  induction l with
  | nil => intro acc h; exact h
  | cons x xs ih =>
    intro acc h
    exact ih (insertD x acc) (insertD_sortedD h)

theorem sortDesc_go_mem :
    ∀ (l acc : List (Int × String)) (z : Int × String),
      z ∈ l.foldl (fun a x => insertD x a) acc ↔ z ∈ acc ∨ z ∈ l := by
  intro l
  induction l with
  | nil => simp
  | cons x xs ih =>
    intro acc z
    simp only [List.foldl_cons, ih, mem_insertD, List.mem_cons]
    tauto

theorem sortDesc_sortedD (l : List (Int × String)) : SortedD (sortDesc l) :=
  sortDesc_go_sortedD l [] (List.Pairwise.nil)

theorem mem_sortDesc {l : List (Int × String)} {z : Int × String} :
    z ∈ sortDesc l ↔ z ∈ l := by
  unfold sortDesc
  rw [sortDesc_go_mem]
  simp

/-- The head of the descending sorted list is not smaller than any element
of the original list. -/
theorem sortDesc_head_max {l : List (Int × String)} {h0 : Int × String}
    {t : List (Int × String)} (hs : sortDesc l = h0 :: t) :
    ∀ z ∈ l, pairLt h0 z = false := by
  intro z hz
  have hz2 : z ∈ h0 :: t := hs ▸ mem_sortDesc.mpr hz
  rcases List.mem_cons.mp hz2 with rfl | hz3
  · exact pairLt_irrefl z
  · have := sortDesc_sortedD l
    rw [hs] at this
    exact (List.pairwise_cons.mp this).1 z hz3

/-! ### Claim C1: choose_best_device -/

/-- C1 counterexample: the two spec example names tie at score 50, and on
the input listing the Elgato name first, choose_best_device returns the
other name, so the first candidate reaching the maximum score in
enumeration order does not win. -/
theorem choose_best_device_tie_cex :
    score_device_name "Elgato HD60" = score_device_name "USB Video Device" ∧
    choose_best_device ["Elgato HD60", "USB Video Device"]
      = some "USB Video Device" ∧
    choose_best_device ["Elgato HD60", "USB Video Device"]
      ≠ some "Elgato HD60" := by
  refine ⟨by decide, by decide, by decide⟩

/-- C1 (amended): choose_best_device returns none on the empty list; on a
non-empty list it returns a candidate with the maximum score, and among the
candidates attaining the maximum score it returns the lexicographically
greatest name under CPython string comparison, not the first one in
enumeration order. -/
theorem choose_best_device_spec :
    choose_best_device [] = none ∧
    ∀ devices : List String, devices ≠ [] →
      ∃ b, choose_best_device devices = some b ∧ b ∈ devices ∧
        (∀ d ∈ devices, score_device_name d ≤ score_device_name b) ∧
        (∀ d ∈ devices, score_device_name d = score_device_name b →
          pyStrLt b d = false) := by
  refine ⟨rfl, ?_⟩
  intro devices hne
  have hne2 : devices.isEmpty = false := by
    cases devices with
    | nil => exact absurd rfl hne
    | cons d ds => rfl
  obtain ⟨d0, hd0⟩ : ∃ d, d ∈ devices := by
    cases devices with
    | nil => exact absurd rfl hne
    | cons d ds => exact ⟨d, List.mem_cons_self d ds⟩
  have hmem0 : (score_device_name d0, d0)
      ∈ sortDesc (devices.map (fun d => (score_device_name d, d))) :=
    mem_sortDesc.mpr (List.mem_map.mpr ⟨d0, hd0, rfl⟩)
  cases hsort : sortDesc (devices.map (fun d => (score_device_name d, d))) with
  | nil => rw [hsort] at hmem0; exact absurd hmem0 (List.not_mem_nil _)
  | cons p t =>
    obtain ⟨s, b⟩ := p
    have hhead : (s, b) ∈ devices.map (fun d => (score_device_name d, d)) := by
      have : (s, b) ∈ sortDesc (devices.map (fun d => (score_device_name d, d))) := by
        rw [hsort]; exact List.mem_cons_self _ _
      exact mem_sortDesc.mp this
    obtain ⟨db, hdb, hdbeq⟩ := List.mem_map.mp hhead
    have hb : db = b := congrArg Prod.snd hdbeq
    have hsb : score_device_name b = s := by
      subst hb; exact (congrArg Prod.fst hdbeq)
    refine ⟨b, ?_, hb ▸ hdb, ?_, ?_⟩
    · simp only [choose_best_device, hne2, Bool.false_eq_true, if_false, hsort]
    · intro d hd
      have hlt := sortDesc_head_max hsort (score_device_name d, d)
        (List.mem_map.mpr ⟨d, hd, rfl⟩)
      simp only [pairLt, Bool.or_eq_false_iff, decide_eq_false_iff_not,
        not_lt, Bool.and_eq_false_imp, beq_iff_eq] at hlt
      rw [hsb]
      exact hlt.1
    · intro d hd hscore
      have hlt := sortDesc_head_max hsort (score_device_name d, d)
        (List.mem_map.mpr ⟨d, hd, rfl⟩)
      simp only [pairLt, Bool.or_eq_false_iff, decide_eq_false_iff_not,
        not_lt, Bool.and_eq_false_imp, beq_iff_eq] at hlt
      exact hlt.2 (by rw [hscore, hsb])

/-- C1 witness: the amended theorem applied to a concrete singleton list. -/
theorem choose_best_device_spec_witness :
    ∃ b, choose_best_device ["Elgato HD60 S"] = some b ∧
      b ∈ ["Elgato HD60 S"] ∧
      (∀ d ∈ ["Elgato HD60 S"],
        score_device_name d ≤ score_device_name b) ∧
      (∀ d ∈ ["Elgato HD60 S"],
        score_device_name d = score_device_name b → pyStrLt b d = false) :=
  choose_best_device_spec.2 ["Elgato HD60 S"] (by decide)

/-! ### Claim C2: score_device_name -/

theorem deviceWeights_nonneg : ∀ kw ∈ deviceWeights, 0 ≤ kw.2 := by decide

theorem foldl_weights_eq (p : String × Int → Bool) :
    ∀ (l : List (String × Int)) (init : Int),
      l.foldl (fun acc kw => if p kw then acc + kw.2 else acc) init
        = init + ((l.filter p).map (fun kw => kw.2)).sum := by
  intro l
  induction l with
  | nil => intro init; simp
  | cons kw rest ih =>
    intro init
    simp only [List.foldl_cons, List.filter_cons]
    by_cases h : p kw
    · rw [if_pos h, if_pos h, ih]
      simp [add_assoc]
    · rw [if_neg h, if_neg h, ih]

/-- C2: score_device_name equals the sum of the weights of the matched
keywords of the fixed table plus the length bonus, is non-negative, gives
the empty string 0, and scores the two spec examples at 50 each.  It is a
pure function of the name, hence deterministic and total. -/
theorem score_device_name_spec :
    (∀ name, score_device_name name = spec_score name ∧
      0 ≤ score_device_name name) ∧
    score_device_name "" = 0 ∧
    score_device_name "USB Video Device" = 50 ∧
    score_device_name "Elgato HD60" = 50 := by
  have heq : ∀ name, score_device_name name = spec_score name := by
    intro name
    simp only [score_device_name, spec_score]
    rw [foldl_weights_eq (fun kw => containsSub kw.1.data (lowerChars name.data))]
    split_ifs with h
    · ring
    · ring
  refine ⟨fun name => ⟨heq name, ?_⟩, by decide, by decide, by decide⟩
  rw [heq name]
  unfold spec_score
  have h1 : 0 ≤ ((deviceWeights.filter
      (fun kw => containsSub kw.1.data (lowerChars name.data))).map
    (fun kw => kw.2)).sum := by
    apply List.sum_nonneg
    intro x hx
    obtain ⟨kw, hkw, rfl⟩ := List.mem_map.mp hx
    exact deviceWeights_nonneg kw (List.mem_of_mem_filter hkw)
  split_ifs with h <;> omega

/-! ### Claims C3, C4, C10: ensure_default_capture_device -/

/-- A query environment in which every external command raises. -/
def envAllErr : QueryEnv := ⟨.error (), .error (), .error (), .error ()⟩

/-- A pinned configuration: capture source with a non-empty device. -/
def cfgPinned : List (String × JVal) :=
  [("source", .jstr "capture"), ("device", .jstr "cap1")]

def envPinned : DiscEnv := ⟨some (.jobj cfgPinned), envAllErr⟩

/-- C3: with source capture and a non-empty device string pinned, the call
returns that string, enumerates nothing, scores nothing, writes nothing,
and a second call on the resulting state returns the identical value with
the same absent effects. -/
theorem ensure_pinned_idempotent (env : DiscEnv) (dry : Bool)
    (cfg : List (String × JVal)) (s : String)
    (hload : env.loadResult = some (.jobj cfg))
    (hsrc : jGet cfg "source" = some (.jstr "capture"))
    (hdev : jGet cfg "device" = some (.jstr s))
    (hs : s ≠ "") :
    ensure_default_capture_device env dry = (some (.jstr s), ⟨false, 0, none⟩) ∧
    ensure_default_capture_device
      (applySave env (ensure_default_capture_device env dry).2) dry
      = ensure_default_capture_device env dry := by
  have hbeq : (s == "") = false := beq_eq_false_iff_ne.mpr hs
  have hcall : ensure_default_capture_device env dry
      = (some (.jstr s), ⟨false, 0, none⟩) := by
    simp [ensure_default_capture_device, load_config, hload, sourceIsCapture,
      hsrc, hdev, truthy, hbeq]
  refine ⟨hcall, ?_⟩
  rw [hcall]
  exact hcall

/-- C3 witness: a concrete pinned configuration. -/
theorem ensure_pinned_idempotent_witness :
    ensure_default_capture_device envPinned false
      = (some (.jstr "cap1"), ⟨false, 0, none⟩) ∧
    ensure_default_capture_device
      (applySave envPinned (ensure_default_capture_device envPinned false).2)
      false = ensure_default_capture_device envPinned false :=
  ensure_pinned_idempotent envPinned false cfgPinned "cap1" rfl rfl rfl
    (by decide)

/-- C4: when the source key does not hold the string capture, the call
returns none with no enumeration, no scoring and no configuration write. -/
theorem ensure_non_capture_inert (env : DiscEnv) (dry : Bool)
    (cfg : List (String × JVal))
    (hload : env.loadResult = some (.jobj cfg))
    (hsrc : sourceIsCapture cfg = false) :
    ensure_default_capture_device env dry = (none, ⟨false, 0, none⟩) := by
  simp [ensure_default_capture_device, load_config, hload, hsrc]

def envOther : DiscEnv := ⟨some (.jobj [("source", .jstr "screen")]), envAllErr⟩

/-- C4 witness: a concrete non-capture configuration. -/
theorem ensure_non_capture_inert_witness :
    ensure_default_capture_device envOther false = (none, ⟨false, 0, none⟩) :=
  ensure_non_capture_inert envOther false [("source", .jstr "screen")] rfl rfl

/-- C10: load_config yields the empty mapping whenever reading or parsing
the configuration file fails, and ensure_default_capture_device on such a
failure returns none with no enumeration, no scoring and no write back
(load_config by construction performs no rename and no write). -/
theorem load_config_failure_inert (env : DiscEnv) (dry : Bool)
    (hload : env.loadResult = none) :
    load_config env.loadResult = JVal.jobj [] ∧
    ensure_default_capture_device env dry = (none, ⟨false, 0, none⟩) := by
  constructor
  · rw [hload]; rfl
  · simp [ensure_default_capture_device, load_config, hload, sourceIsCapture,
      jGet]

def envCorrupt : DiscEnv := ⟨none, envAllErr⟩

/-- C10 witness: a concrete failed load. -/
theorem load_config_failure_inert_witness :
    load_config envCorrupt.loadResult = JVal.jobj [] ∧
    ensure_default_capture_device envCorrupt false = (none, ⟨false, 0, none⟩) :=
  load_config_failure_inert envCorrupt false rfl

/-! ### Deduplication lemmas -/

theorem mem_dedupSeen : ∀ (l seen : List String) (z : String),
    z ∈ dedupSeen seen l ↔ z ∈ l ∧ z ∉ seen := by
  intro l
  induction l with
  | nil => intro seen z; simp [dedupSeen]
  | cons x xs ih =>
    intro seen z
    simp only [dedupSeen]
    by_cases hx : seen.contains x
    · have hxs : x ∈ seen := by simpa using hx
      rw [if_pos hx, ih]
      constructor
      · rintro ⟨hz, hzs⟩; exact ⟨List.mem_cons_of_mem _ hz, hzs⟩
      · rintro ⟨hz, hzs⟩
        rcases List.mem_cons.mp hz with rfl | hz2
        · exact absurd hxs hzs
        · exact ⟨hz2, hzs⟩
    · have hxs : x ∉ seen := by simpa using hx
      rw [if_neg hx]
      constructor
      · intro h
        rcases List.mem_cons.mp h with rfl | h2
        · exact ⟨List.mem_cons_self _ _, hxs⟩
        · obtain ⟨h3, h4⟩ := (ih (x :: seen) z).mp h2
          exact ⟨List.mem_cons_of_mem _ h3,
            fun hs => h4 (List.mem_cons_of_mem _ hs)⟩
      · rintro ⟨hz, hzs⟩
        rcases List.mem_cons.mp hz with rfl | h2
        · exact List.mem_cons_self _ _
        · by_cases hzx : z = x
          · subst hzx; exact List.mem_cons_self _ _
          · exact List.mem_cons_of_mem _ ((ih (x :: seen) z).mpr
              ⟨h2, fun hs => (List.mem_cons.mp hs).elim hzx hzs⟩)

theorem nodup_dedupSeen : ∀ (l seen : List String), (dedupSeen seen l).Nodup := by
  intro l
  induction l with
  | nil => intro seen; simp [dedupSeen]
  | cons x xs ih =>
    intro seen
    simp only [dedupSeen]
    by_cases hx : seen.contains x
    · rw [if_pos hx]; exact ih seen
    · rw [if_neg hx]
      refine List.nodup_cons.mpr ⟨?_, ih (x :: seen)⟩
      intro hmem
      exact ((mem_dedupSeen xs (x :: seen) x).mp hmem).2 (List.mem_cons_self _ _)

theorem nodup_dedupFirst (l : List String) : (dedupFirst l).Nodup :=
  nodup_dedupSeen l []

/-- Relative order in the deduplicated list agrees with the order of first
occurrences in the raw list. -/
theorem indexOf_dedupSeen : ∀ (l seen : List String) (x y : String),
    x ∈ l → x ∉ seen → y ∈ l → y ∉ seen →
    ((dedupSeen seen l).indexOf x ≤ (dedupSeen seen l).indexOf y ↔
      l.indexOf x ≤ l.indexOf y) := by
  intro l
  induction l with
  | nil => intro seen x y hx; exact absurd hx (List.not_mem_nil x)
  | cons a t ih =>
    intro seen x y hx hxs hy hys
    simp only [dedupSeen]
    by_cases ha : seen.contains a
    · have has : a ∈ seen := by simpa using ha
      have hxa : x ≠ a := fun h => hxs (h ▸ has)
      have hya : y ≠ a := fun h => hys (h ▸ has)
      have hxt : x ∈ t := by
        rcases List.mem_cons.mp hx with rfl | h
        · exact absurd rfl hxa
        · exact h
      have hyt : y ∈ t := by
        rcases List.mem_cons.mp hy with rfl | h
        · exact absurd rfl hya
        · exact h
      rw [if_pos ha, List.indexOf_cons_ne t hxa.symm,
        List.indexOf_cons_ne t hya.symm, ih seen x y hxt hxs hyt hys]
      omega
    · rw [if_neg ha]
      by_cases hxa : x = a
      · subst hxa
        rw [List.indexOf_cons_self, List.indexOf_cons_self]
        simp
      · have hxt : x ∈ t := by
          rcases List.mem_cons.mp hx with rfl | h
          · exact absurd rfl hxa
          · exact h
        by_cases hya : y = a
        · subst hya
          simp only [List.indexOf_cons_self]
          rw [List.indexOf_cons_ne (dedupSeen (y :: seen) t)
              (fun h => hxa h.symm),
            List.indexOf_cons_ne t (fun h => hxa h.symm)]
          omega
        · have hyt : y ∈ t := by
            rcases List.mem_cons.mp hy with rfl | h
            · exact absurd rfl hya
            · exact h
          have hxseen : x ∉ a :: seen := by
            intro h
            rcases List.mem_cons.mp h with rfl | h2
            · exact hxa rfl
            · exact hxs h2
          have hyseen : y ∉ a :: seen := by
            intro h
            rcases List.mem_cons.mp h with rfl | h2
            · exact hya rfl
            · exact hys h2
          rw [List.indexOf_cons_ne (dedupSeen (a :: seen) t)
              (fun h => hxa h.symm),
            List.indexOf_cons_ne (dedupSeen (a :: seen) t)
              (fun h => hya h.symm),
            List.indexOf_cons_ne t (fun h => hxa h.symm),
            List.indexOf_cons_ne t (fun h => hya h.symm)]
          have := ih (a :: seen) x y hxt hxseen hyt hyseen
          omega

/-! ### Claim C5: total fall-through of the strategy chain -/

theorem strategyPS_none {o : Except Unit String} (h : psNothing o = true) :
    strategyPS o = none := by
  cases o with
  | error e => rfl
  | ok raw =>
    simp only [psNothing] at h
    simp [strategyPS, h]

/-- C5: every query outcome, exceptions included, is consumed by the chain
(the embedding is total by construction, the try/except structure of the
source), a failing or empty strategy falls through to the next one in the
fixed order, and when all four yield nothing the result is the empty list. -/
theorem find_capture_devices_all_fail (env : QueryEnv)
    (h1 : psNothing env.cimMatch = true)
    (h2 : psNothing env.pnpCamera = true)
    (h3 : strat3Nothing env.cimAll = true)
    (h4 : find_capture_devices_ffmpeg env = []) :
    find_capture_devices env = [] := by
  have hpnp : find_capture_devices_pnp env = [] := by
    unfold find_capture_devices_pnp
    rw [strategyPS_none h1, strategyPS_none h2]
    unfold strat3Nothing at h3
    cases hall : strategyAll env.cimAll with
    | none => rfl
    | some r =>
      rw [hall] at h3
      have : r = [] := by simpa using h3
      simp [this]
  simp only [find_capture_devices]
  rw [hpnp]
  simpa using h4

/-- C5 witness: the environment in which every external command raises. -/
theorem find_capture_devices_all_fail_witness :
    find_capture_devices envAllErr = [] :=
  find_capture_devices_all_fail envAllErr rfl rfl rfl rfl

/-! ### Claim C6: no duplicates, first-seen order -/

theorem strategyPS_nodup {o : Except Unit String} {r : List String}
    (h : strategyPS o = some r) : r.Nodup := by
  cases o with
  | error e => exact absurd h (by simp [strategyPS])
  | ok raw =>
    simp only [strategyPS] at h
    by_cases hempty : (stripStr raw == "") = true
    · rw [if_pos hempty] at h
      exact absurd h (by simp)
    · rw [if_neg hempty] at h
      injection h with h2
      exact h2 ▸ nodup_dedupFirst _

theorem strategyAll_nodup {o : Except Unit String} {r : List String}
    (h : strategyAll o = some r) : r.Nodup := by
  cases o with
  | error e => exact absurd h (by simp [strategyAll])
  | ok raw =>
    simp only [strategyAll] at h
    by_cases hempty : (stripStr raw == "") = true
    · rw [if_pos hempty] at h
      exact absurd h (by simp)
    · rw [if_neg hempty] at h
      injection h with h2
      exact h2 ▸ nodup_dedupFirst _

theorem find_capture_devices_pnp_nodup (env : QueryEnv) :
    (find_capture_devices_pnp env).Nodup := by
  unfold find_capture_devices_pnp
  cases h1 : strategyPS env.cimMatch with
  | some r => exact strategyPS_nodup h1
  | none =>
    cases h2 : strategyPS env.pnpCamera with
    | some r => exact strategyPS_nodup h2
    | none =>
      cases h3 : strategyAll env.cimAll with
      | some r => exact strategyAll_nodup h3
      | none => exact List.nodup_nil

theorem find_capture_devices_ffmpeg_nodup (env : QueryEnv) :
    (find_capture_devices_ffmpeg env).Nodup := by
  unfold find_capture_devices_ffmpeg
  cases env.ffmpegList with
  | error e => exact nodup_dedupFirst []
  | ok t => exact nodup_dedupFirst _

/-- C6: each strategy result and the combined result contain no duplicate
names, and the dict.fromkeys deduplication is first-seen order preserving:
every raw name survives into the deduplicated list, and the relative order
of two surviving names agrees with the order of their first occurrences in
the raw extracted sequence. -/
theorem enumeration_nodup_first_seen (env : QueryEnv) :
    (find_capture_devices_pnp env).Nodup ∧
    (find_capture_devices_ffmpeg env).Nodup ∧
    (find_capture_devices env).Nodup ∧
    (∀ (raw : List String) (x y : String), x ∈ raw → y ∈ raw →
      (x ∈ dedupFirst raw ∧
        ((dedupFirst raw).indexOf x ≤ (dedupFirst raw).indexOf y ↔
          raw.indexOf x ≤ raw.indexOf y))) := by
  refine ⟨find_capture_devices_pnp_nodup env,
    find_capture_devices_ffmpeg_nodup env, ?_, ?_⟩
  · simp only [find_capture_devices]
    split_ifs with h
    · exact find_capture_devices_ffmpeg_nodup env
    · exact find_capture_devices_pnp_nodup env
  · intro raw x y hx hy
    refine ⟨(mem_dedupSeen raw [] x).mpr ⟨hx, List.not_mem_nil x⟩, ?_⟩
    exact indexOf_dedupSeen raw [] x y hx (List.not_mem_nil x) hy
      (List.not_mem_nil y)

/-- C6 witness: a concrete raw list with a duplicate. -/
theorem enumeration_nodup_first_seen_witness :
    "a" ∈ dedupFirst ["b", "a", "b"] ∧
    ((dedupFirst ["b", "a", "b"]).indexOf "a"
        ≤ (dedupFirst ["b", "a", "b"]).indexOf "b" ↔
      (["b", "a", "b"] : List String).indexOf "a"
        ≤ (["b", "a", "b"] : List String).indexOf "b") :=
  (enumeration_nodup_first_seen envAllErr).2.2.2 ["b", "a", "b"] "a" "b"
    (by decide) (by decide)

/-! ### Claims C7, C8: VideoCaptureThread.run and stop -/

/-- With an unopened handle every read fails, so the loop emits nothing and
raises nothing, whatever the fuel. -/
theorem runLoop_unopened (env : CaptureEnv) :
    ∀ (fuel k : Nat) (acc : List Nat),
      (runLoop env false fuel k acc).frames = acc.reverse ∧
      (runLoop env false fuel k acc).raised = false := by
  intro fuel
  induction fuel with
  | zero => intro k acc; exact ⟨rfl, rfl⟩
  | succ fuel ih =>
    intro k acc
    simp only [runLoop, Bool.false_and, Bool.false_eq_true, if_false]
    by_cases hr : runningAt env k = true
    · rw [if_pos hr]; exact ih (k + 1) acc
    · rw [if_neg hr]; exact ⟨rfl, rfl⟩

/-- With an unopened handle and a host that never calls stop, the loop
never leaves run, whatever the fuel. -/
theorem runLoop_unopened_never_exits (env : CaptureEnv)
    (hstop : env.stopTick = none) :
    ∀ (fuel k : Nat) (acc : List Nat),
      (runLoop env false fuel k acc).exited = false := by
  intro fuel
  induction fuel with
  | zero => intro k acc; rfl
  | succ fuel ih =>
    intro k acc
    have hr : runningAt env k = true := by simp [runningAt, hstop]
    simp only [runLoop, hr, if_true, Bool.false_and, Bool.false_eq_true,
      if_false]
    exact ih (k + 1) acc

/-- The environment of a double open failure where both constructors return
unopened handles and the host never stops the thread. -/
def envOpenFail : CaptureEnv :=
  ⟨.notOpened, .notOpened, fun _ => true, none⟩

theorem videoCaptureRun_openfail_never_exits :
    ∀ fuel, (videoCaptureRun envOpenFail fuel).exited = false :=
  fun fuel => runLoop_unopened_never_exits envOpenFail rfl fuel 0 []

/-- C7 counterexample: when the name open and the index-0 fallback both
yield unopened handles (the usual cv2 failure mode, which raises nothing),
the loop does not terminate: it keeps retrying silently for every
observation bound, so the claimed terminated-without-frames outcome is not
reached for every double open failure. -/
theorem videoCaptureRun_double_openfail_cex :
    ¬ (∀ env : CaptureEnv, env.openByName = OpenOutcome.notOpened →
        env.openIndex0 ≠ OpenOutcome.opened →
        ∃ fuel, (videoCaptureRun env fuel).exited = true ∧
          (videoCaptureRun env fuel).frames = [] ∧
          (videoCaptureRun env fuel).raised = false) := by
  intro hclaim
  obtain ⟨fuel, hexit, -, -⟩ := hclaim envOpenFail rfl (by decide)
  rw [videoCaptureRun_openfail_never_exits fuel] at hexit
  exact Bool.false_ne_true hexit

/-- C7 (amended): on a double open failure, run never emits a frame and
never raises to its host; when the fallback open raises, run returns at
once after releasing the unopened name handle, but when the fallback open
merely yields an unopened handle the loop keeps retrying until externally
stopped instead of terminating. -/
theorem videoCaptureRun_double_openfail (env : CaptureEnv) (fuel : Nat)
    (hname : env.openByName = OpenOutcome.notOpened) :
    (env.openIndex0 = OpenOutcome.raisesExc →
      videoCaptureRun env fuel = ⟨[], 1, true, false⟩) ∧
    (env.openIndex0 = OpenOutcome.notOpened →
      (videoCaptureRun env fuel).frames = [] ∧
      (videoCaptureRun env fuel).raised = false) := by
  constructor
  · intro hidx
    simp [videoCaptureRun, hname, hidx]
  · intro hidx
    have hrun : videoCaptureRun env fuel = runLoop env false fuel 0 [] := by
      simp [videoCaptureRun, hname, hidx]
    rw [hrun]
    simpa using runLoop_unopened env fuel 0 []

def envOpenRaise : CaptureEnv := ⟨.notOpened, .raisesExc, fun _ => true, none⟩

/-- C7 witness: a concrete raising fallback. -/
theorem videoCaptureRun_double_openfail_witness :
    videoCaptureRun envOpenRaise 5 = ⟨[], 1, true, false⟩ :=
  (videoCaptureRun_double_openfail envOpenRaise 5 rfl).1 rfl

/-- With a streaming handle and the stop signal set at boundary s, the loop
exits at that boundary within any sufficient fuel, its cleanup releases the
handle once, and every emitted frame belongs to an iteration before s. -/
theorem runLoop_stop_exits (env : CaptureEnv) (s : Nat)
    (hstop : env.stopTick = some s) :
    ∀ (fuel k : Nat) (acc : List Nat), 1 ≤ fuel → s < k + fuel →
      (∀ j ∈ acc, j < s) →
      (runLoop env true fuel k acc).exited = true ∧
      (runLoop env true fuel k acc).releases = 1 ∧
      (∀ j ∈ (runLoop env true fuel k acc).frames, j < s) := by
  intro fuel
  induction fuel with
  | zero =>
    intro k acc hf
    exact absurd hf (by decide)
  | succ fuel ih =>
    intro k acc hf hcnt hacc
    have hrk : runningAt env k = decide (k < s) := by simp [runningAt, hstop]
    by_cases hk : k < s
    · have hr : runningAt env k = true := by simp [hrk, hk]
      simp only [runLoop, hr, if_true, Bool.true_and]
      by_cases hread : env.readOk k = true
      · rw [if_pos hread]
        refine ih (k + 1) (k :: acc) (by omega) (by omega) ?_
        intro j hj
        rcases List.mem_cons.mp hj with rfl | hj2
        · exact hk
        · exact hacc j hj2
      · rw [if_neg hread]
        exact ih (k + 1) acc (by omega) (by omega) hacc
    · have hr : runningAt env k = false := by simp [hrk, hk]
      simp only [runLoop, hr, Bool.false_eq_true, if_false]
      refine ⟨by trivial, by trivial, ?_⟩
      intro j hj
      exact hacc j (List.mem_reverse.mp hj)

/-- A streaming session stopped at the boundary after the first
iteration, with every read succeeding. -/
def envStopMid : CaptureEnv := ⟨.opened, .opened, fun _ => true, some 1⟩

/-- C8 counterexample: the device opens by name, every read succeeds and
the host stops at boundary 1; run exits, having emitted the frame of
iteration 0, and the handle is released twice, once by stop itself and
once by the cleanup of run, so it is not released exactly once. -/
theorem stop_release_exactly_once_cex :
    envStopMid.openByName = OpenOutcome.opened ∧
    envStopMid.stopTick = some 1 ∧
    (videoCaptureRun envStopMid 3).exited = true ∧
    (videoCaptureRun envStopMid 3).frames = [0] ∧
    totalReleases envStopMid 3 = 2 ∧
    totalReleases envStopMid 3 ≠ 1 := by
  refine ⟨rfl, rfl, rfl, rfl, rfl, by decide⟩

/-- C8 (amended): when stop is signalled at boundary s while the by-name
open succeeded, the loop exits at the next boundary (within any fuel beyond
s), emits no frame at or after that boundary, and the handle is released on
this exit path, but twice in total across run and stop, once by each,
rather than exactly once. -/
theorem stop_release_and_frames (env : CaptureEnv) (fuel s : Nat)
    (hopen : env.openByName = OpenOutcome.opened)
    (hstop : env.stopTick = some s)
    (hfuel : s < fuel) :
    (videoCaptureRun env fuel).exited = true ∧
    totalReleases env fuel = 2 ∧
    (∀ j ∈ (videoCaptureRun env fuel).frames, j < s) := by
  have hrun : videoCaptureRun env fuel = runLoop env true fuel 0 [] := by
    simp [videoCaptureRun, hopen]
  obtain ⟨h1, h2, h3⟩ := runLoop_stop_exits env s hstop fuel 0
    [] (by omega) (by omega) (by simp)
  refine ⟨hrun ▸ h1, ?_, hrun ▸ h3⟩
  unfold totalReleases stopReleases
  rw [hrun, h2, hstop, hopen]
  simp

/-- C8 witness: the concrete stopped session. -/
theorem stop_release_and_frames_witness :
    (videoCaptureRun envStopMid 3).exited = true ∧
    totalReleases envStopMid 3 = 2 :=
  ⟨(stop_release_and_frames envStopMid 3 1 rfl rfl (by decide)).1,
   (stop_release_and_frames envStopMid 3 1 rfl rfl (by decide)).2.1⟩

/-! ### Claim C9: ensure_config backup of a corrupt configuration -/

theorem find_fsSetList_same : ∀ (l : List (String × String)) (p c : String),
    ((fsSetList l p c).find? (fun e => e.1 == p)).map (fun e => e.2)
      = some c := by
  intro l
  induction l with
  | nil => intro p c; simp [fsSetList]
  | cons e rest ih =>
    intro p c
    simp only [fsSetList]
    by_cases h : (e.1 == p) = true
    · rw [if_pos h]
      simp [List.find?, h]
    · rw [if_neg h]
      simp only [List.find?, h]
      exact ih p c

theorem fsGet_fsSet_same (fs : FS) (p c : String) :
    fsGet (fsSet fs p c) p = some c :=
  find_fsSetList_same fs.files p c

theorem find_fsSetList_other : ∀ (l : List (String × String)) (p c q : String),
    p ≠ q →
    (fsSetList l p c).find? (fun e => e.1 == q)
      = l.find? (fun e => e.1 == q) := by
  intro l
  induction l with
  | nil =>
    intro p c q hpq
    have : (p == q) = false := beq_eq_false_iff_ne.mpr hpq
    simp [fsSetList, List.find?, this]
  | cons e rest ih =>
    intro p c q hpq
    simp only [fsSetList]
    by_cases h : (e.1 == p) = true
    · rw [if_pos h]
      have he : e.1 = p := beq_iff_eq.mp h
      have : (e.1 == q) = false := beq_eq_false_iff_ne.mpr (he ▸ hpq)
      simp [List.find?, this]
    · rw [if_neg h]
      simp only [List.find?]
      cases hq : (e.1 == q) with
      | true => rfl
      | false => exact ih p c q hpq

theorem fsGet_fsSet_other (fs : FS) (p c q : String) (h : p ≠ q) :
    fsGet (fsSet fs p c) q = fsGet fs q := by
  unfold fsGet fsSet
  rw [find_fsSetList_other fs.files p c q h]

theorem find_filter_ne : ∀ (l : List (String × String)) (p q : String), p ≠ q →
    (l.filter (fun e => !(e.1 == p))).find? (fun e => e.1 == q)
      = l.find? (fun e => e.1 == q) := by
  intro l
  induction l with
  | nil => intro p q hpq; rfl
  | cons e rest ih =>
    intro p q hpq
    simp only [List.filter]
    cases hp : (e.1 == p) with
    | true =>
      have he : e.1 = p := beq_iff_eq.mp hp
      have hq : (e.1 == q) = false := beq_eq_false_iff_ne.mpr (he ▸ hpq)
      simp only [Bool.not_true, List.find?, hq]
      exact ih p q hpq
    | false =>
      simp only [Bool.not_false, List.find?]
      cases hq : (e.1 == q) with
      | true => rfl
      | false => exact ih p q hpq

theorem fsGet_fsDel_other (fs : FS) (p q : String) (h : p ≠ q) :
    fsGet (fsDel fs p) q = fsGet fs q := by
  unfold fsGet fsDel
  rw [find_filter_ne fs.files p q h]

theorem suffixOfName_drop (n : List Char) :
    ∃ i, i ≤ n.length ∧ suffixOfName n = n.drop i := by
  unfold suffixOfName
  cases h : n.reverse.findIdx? (fun c => c == '.') with
  | none => exact ⟨n.length, le_refl _, by simp⟩
  | some j =>
    dsimp only
    by_cases hc : 0 < n.length - 1 - j ∧ n.length - 1 - j < n.length - 1
    · rw [if_pos hc]
      exact ⟨n.length - 1 - j, by omega, rfl⟩
    · rw [if_neg hc]
      exact ⟨n.length, le_refl _, by simp⟩

theorem withSuffix_append (n b : List Char) :
    withSuffixName n (suffixOfName n ++ b) = n ++ b := by
  obtain ⟨i, hi, hsuf⟩ := suffixOfName_drop n
  unfold withSuffixName
  by_cases h : (suffixOfName n).isEmpty = true
  · have h0 : suffixOfName n = [] := by simpa using h
    rw [if_pos h, h0]
    simp
  · rw [if_neg h, hsuf, List.length_drop]
    have h2 : n.length - (n.length - i) = i := by omega
    rw [h2, ← List.append_assoc, List.take_append_drop]

theorem pathName_append (p : List Char) :
    p.take (p.length - (pathNameChars p).length) ++ pathNameChars p = p := by
  obtain ⟨A, hdecomp⟩ : ∃ A, A ++ pathNameChars p = p :=
    ⟨(p.reverse.dropWhile (fun c => !(c == '/'))).reverse, by
      unfold pathNameChars
      rw [← List.reverse_append, List.takeWhile_append_dropWhile,
        List.reverse_reverse]⟩
  generalize pathNameChars p = name at hdecomp ⊢
  subst hdecomp
  rw [List.length_append]
  have h3 : A.length + name.length - name.length = A.length := by omega
  rw [h3, List.take_left]

/-- The backup name is the path with ".bad" appended: the new suffix is the
old suffix extended, so with_suffix reattaches it unchanged. -/
theorem backupOf_eq (p : String) : backupOf p = p ++ ".bad" := by
  simp only [backupOf]
  rw [withSuffix_append, ← List.append_assoc, pathName_append]
  cases p with
  | mk l => rfl

theorem backupOf_ne (p : String) : backupOf p ≠ p := by
  rw [backupOf_eq]
  intro h
  have h2 := congrArg String.data h
  rw [String.data_append] at h2
  have h3 := congrArg List.length h2
  rw [List.length_append] at h3
  simp [String.data] at h3

/-- C9: when the configuration file exists but its content does not parse
as JSON, ensure_config returns the default configuration, the original
content survives on disk under the backup name, and the path itself holds
the serialized default configuration. -/
theorem ensure_config_backup (parse : String → Option JVal)
    (dumps : JVal → String) (fs : FS) (path content : String)
    (hexists : fsGet fs path = some content)
    (hbad : parse content = none) :
    (ensure_config parse dumps fs path).1 = DEFAULT_CONFIG ∧
    fsGet (ensure_config parse dumps fs path).2 (backupOf path)
      = some content ∧
    fsGet (ensure_config parse dumps fs path).2 path
      = some (dumps DEFAULT_CONFIG) := by
  have hcall : ensure_config parse dumps fs path
      = (DEFAULT_CONFIG,
        fsSet (fsRename fs path (backupOf path)) path
          (dumps DEFAULT_CONFIG)) := by
    simp [ensure_config, hexists, hbad]
  rw [hcall]
  refine ⟨rfl, ?_, ?_⟩
  · rw [fsGet_fsSet_other _ path _ (backupOf path) (fun h => backupOf_ne path h.symm)]
    unfold fsRename
    rw [hexists]
    exact fsGet_fsSet_same _ _ _
  · exact fsGet_fsSet_same _ _ _

def fsCorrupt : FS := ⟨[("config.json", "oops")]⟩

def parseNone : String → Option JVal := fun _ => none

def dumpsFixed : JVal → String := fun _ => "serialized"

/-- C9 witness: a concrete corrupt configuration file. -/
theorem ensure_config_backup_witness :
    (ensure_config parseNone dumpsFixed fsCorrupt "config.json").1
      = DEFAULT_CONFIG ∧
    fsGet (ensure_config parseNone dumpsFixed fsCorrupt "config.json").2
      (backupOf "config.json") = some "oops" :=
  ⟨(ensure_config_backup parseNone dumpsFixed fsCorrupt "config.json" "oops"
      rfl rfl).1,
   (ensure_config_backup parseNone dumpsFixed fsCorrupt "config.json" "oops"
      rfl rfl).2.1⟩
